import Mathlib

/-!
Shallow embedding of the change-detection core of the CRM file event
service (package crm_file_event_service) and proofs about it.

Conventions of the embedding:
* Python dictionaries keyed by path (snapshots) are association lists
  `List (String × FileState)`; dict keys are unique, which appears as a
  Nodup hypothesis where a proof needs it.
* Timestamps and file sizes (Python floats / ints) are modelled as `Int`;
  only equality and ordering of these values matter to the code.
* Python `sorted` on strings is modelled by an insertion sort, proved to
  be a permutation and sorted.
* Fallible Python operations are `Except String`; functions the Python
  code makes total by catching exceptions internally are total here.
-/

namespace CrmFileEventService

/-! ## Generic insertion sort, the model of Python `sorted` -/

def insertLe {α : Type} (le : α → α → Bool) (x : α) : List α → List α
  | [] => [x]
  | y :: ys => if le x y then x :: y :: ys else y :: insertLe le x ys

def sortLe {α : Type} (le : α → α → Bool) : List α → List α
  | [] => []
  | x :: xs => insertLe le x (sortLe le xs)

/-! ## Data model (models.py) -/

/-- Model of `FileState` from models.py: observed metadata of one file. -/
structure FileState where
  path : String
  modified_at : Int
  size : Int
  checksum : Option String := none
deriving DecidableEq, Repr

/-- Model of `FileEvent` from models.py.  The wall-clock `event_time`
field (a `default_factory` reading the real clock) is outside the pure
model; stored rows carry an explicit time in `StoredEvent` below. -/
structure FileEvent where
  event_type : String
  path : String
  project : Option String
  username : Option String
  file_size : Option Int
  checksum : Option String
  details : Option String := none
deriving DecidableEq, Repr

/-- Model of `DirectoryConfig` from config.py.  The Python fields
`include`/`exclude` are named `include_patterns`/`exclude_patterns`
here because `include` is a Lean keyword. -/
structure DirectoryConfig where
  path : String
  project : Option String := none
  username : Option String := none
  include_patterns : List String := []
  exclude_patterns : List String := []
  poll_interval : Option Int := none
  compute_checksum : Bool := false
  emit_on_start : Bool := false
  backend : String := "polling"
  min_file_size : Option Int := none
  max_file_size : Option Int := none
  recursive : Bool := true
  follow_symlinks : Bool := false
  ignore_hidden : Bool := false
  metadata : List (String × String) := []
deriving DecidableEq, Repr

/-! ## Snapshots -/

/-- Snapshot: the in-memory `Dict[str, FileState]` of a watcher,
modelled as an association list in insertion order. -/
abbrev Snapshot := List (String × FileState)

/-- Keys of a snapshot (the paths), in insertion order. -/
def snapshotKeys (s : Snapshot) : List String := s.map Prod.fst

/-- Dictionary lookup `snapshot[path]`, first binding wins. -/
def lookupState : Snapshot → String → Option FileState
  | [], _ => none
  | p :: rest, k => if p.1 = k then some p.2 else lookupState rest k

/-- Dictionary assignment `snapshot[path] = state`: replace an existing
binding in place or append a fresh one, as Python dicts do. -/
def insertEntry : Snapshot → String → FileState → Snapshot
  | [], k, v => [(k, v)]
  | p :: rest, k, v => if p.1 = k then (k, v) :: rest else p :: insertEntry rest k v

/-- Well-formedness every snapshot built by `_build_snapshot` has: each
stored state records the key it is filed under, and keys are unique
(Python dict keys always are). -/
def SnapshotWF (s : Snapshot) : Prop :=
  (∀ p ∈ s, p.2.path = p.1) ∧ (snapshotKeys s).Nodup

instance (s : Snapshot) : Decidable (SnapshotWF s) := by
  unfold SnapshotWF; infer_instance

/-! ## External hashlib model -/

/-- Names `hashlib.new` accepts (the algorithms guaranteed by the Python
standard library); `hashlib` itself is outside the repository, so only
its accept/reject behaviour is modelled. -/
def hashlib_algorithms : List String :=
  ["md5", "sha1", "sha224", "sha256", "sha384", "sha512",
   "sha3_224", "sha3_256", "sha3_384", "sha3_512", "blake2b", "blake2s"]

/-- Model of `hashlib.new(name)`: raises `ValueError` on an unsupported
algorithm name, otherwise returns a hasher (elided to `Unit`). -/
def hashlib_new (name : String) : Except String Unit :=
  if name ∈ hashlib_algorithms then .ok ()
  else .error ("unsupported hash type " ++ name)

/-- Abstract stand-in for a hash digest of file content; no claim
depends on digest values, only on whether a digest was produced. -/
def hexdigest (algorithm : String) (content : List Nat) : String :=
  algorithm ++ ":" ++ toString content

/-! ## Filesystem model (the ambient state `_build_snapshot` walks) -/

/-- One file found by the `os.walk` traversal: its path, stat data, and
the outcome of reading its content (`Except` because the read can fail
with `OSError`). `stat_ok` is false when `path.stat()` raises. -/
structure FsEntry where
  path : String
  mtime : Int
  size : Int
  stat_ok : Bool := true
  read_result : Except String (List Nat) := .ok []

/-- The part of the filesystem a watcher can observe: whether the
configured root exists, and the files the walk enumerates. -/
structure Filesystem where
  root_exists : Bool
  files : List FsEntry

/-! ## DirectoryWatcher (watcher.py) -/

/-- Mutable state of a `DirectoryWatcher` object. -/
structure Watcher where
  config : DirectoryConfig
  checksum_algorithm : String
  snapshot : Snapshot
  initialised : Bool
deriving Repr

/-- Model of `DirectoryWatcher.__init__` (watcher.py lines 22-29): when
checksums are requested the algorithm is validated eagerly through
`hashlib.new`, so a bad name raises at construction time. -/
def Watcher.init (config : DirectoryConfig) (checksum_algorithm : String) :
    Except String Watcher :=
  if config.compute_checksum then
    match hashlib_new checksum_algorithm with
    | .error e => .error e
    | .ok _ =>
      .ok { config := config, checksum_algorithm := checksum_algorithm,
            snapshot := [], initialised := false }
  else
    .ok { config := config, checksum_algorithm := checksum_algorithm,
          snapshot := [], initialised := false }

/-- Model of `DirectoryWatcher._passes_size_filter` (watcher.py lines
202-209). -/
def passes_size_filter (cfg : DirectoryConfig) (size : Int) : Bool :=
  if cfg.min_file_size.any (fun minimum => decide (size < minimum)) then false
  else if cfg.max_file_size.any (fun maximum => decide (size > maximum)) then false
  else true

/-- Model of `DirectoryWatcher._has_changed` (watcher.py lines 168-175). -/
def has_changed (cfg : DirectoryConfig) (old_state new_state : FileState) : Bool :=
  if old_state.size ≠ new_state.size then true
  else if old_state.modified_at ≠ new_state.modified_at then true
  else if cfg.compute_checksum && (old_state.checksum != new_state.checksum) then true
  else false

/-- Model of `DirectoryWatcher._compute_checksum` (watcher.py lines
185-200): an unsupported algorithm or a failed content read yields
`none` ("no checksum available"), never an exception. -/
def compute_checksum (algorithm : String) (read_result : Except String (List Nat)) :
    Option String :=
  match hashlib_new algorithm with
  | .error _ => none
  | .ok _ =>
    match read_result with
    | .error _ => none
    | .ok content => some (hexdigest algorithm content)

/-- String comparison used to model Python `sorted` on path strings. -/
def strLe (a b : String) : Bool := decide (a ≤ b)

/-- Lexicographic comparison on pairs, the order of Python
`sorted(metadata.items())`. -/
def pairLe (a b : String × String) : Bool :=
  decide (a.1 < b.1) || (a.1 == b.1 && decide (a.2 ≤ b.2))

/-- Model of `DirectoryWatcher._build_event` (watcher.py lines 151-166). -/
def build_event (cfg : DirectoryConfig) (event_type : String) (state : FileState) :
    FileEvent :=
  let details_parts :=
    ("watched_root=" ++ cfg.path) ::
      (sortLe pairLe cfg.metadata).map (fun kv => kv.1 ++ "=" ++ kv.2)
  { event_type := event_type
    path := state.path
    project := cfg.project
    username := cfg.username
    file_size := some state.size
    checksum := state.checksum
    details := some (String.intercalate "; " details_parts) }

/-- Body of the third loop of `_diff` (watcher.py lines 110-114): for a
path common to both snapshots, the modified event it contributes, if
any. -/
def modified_event (cfg : DirectoryConfig) (previous current : Snapshot)
    (path : String) : Option FileEvent :=
  match lookupState previous path, lookupState current path with
  | some old_state, some new_state =>
    if has_changed cfg old_state new_state
    then some (build_event cfg "modified" new_state)
    else none
  | _, _ => none

/-- Model of `DirectoryWatcher._diff` (watcher.py lines 91-116): set
difference / intersection of the key sets, each group sorted by path,
then created, deleted and (actually changed) modified events in that
order. -/
def diff (cfg : DirectoryConfig) (previous current : Snapshot) : List FileEvent :=
  let previous_keys := snapshotKeys previous
  let current_keys := snapshotKeys current
  let created := sortLe strLe (current_keys.filter (fun k => decide (k ∉ previous_keys)))
  let deleted := sortLe strLe (previous_keys.filter (fun k => decide (k ∉ current_keys)))
  let maybe_modified :=
    sortLe strLe (previous_keys.filter (fun k => decide (k ∈ current_keys)))
  (created.filterMap (fun path =>
      (lookupState current path).map (fun state => build_event cfg "created" state)))
  ++ (deleted.filterMap (fun path =>
      (lookupState previous path).map (fun state => build_event cfg "deleted" state)))
  ++ (maybe_modified.filterMap (modified_event cfg previous current))

/-- Loop body of `_build_snapshot` (watcher.py lines 69-88): skip an
entry that fails filtering, stat or the size bounds, otherwise store
its state (with a checksum only when configured). -/
def snapshot_step (w : Watcher) (consider : String → Bool)
    (snapshot : Snapshot) (entry : FsEntry) : Snapshot :=
  if consider entry.path = false then snapshot
  else if entry.stat_ok = false then snapshot
  else if passes_size_filter w.config entry.size = false then snapshot
  else
    insertEntry snapshot entry.path
      { path := entry.path
        modified_at := entry.mtime
        size := entry.size
        checksum :=
          if w.config.compute_checksum
          then compute_checksum w.checksum_algorithm entry.read_result
          else none }

/-- Model of `DirectoryWatcher._build_snapshot` (watcher.py lines
50-89).  The fnmatch-based `_should_consider` predicate is passed in as
`consider` (its glob matching lives in the Python standard library);
`fs` is the observed filesystem. -/
def build_snapshot (w : Watcher) (consider : String → Bool) (fs : Filesystem) :
    Snapshot :=
  if fs.root_exists = false then []
  else fs.files.foldl (snapshot_step w consider) []

/-- Model of `DirectoryWatcher.poll` (watcher.py lines 31-45), with the
snapshot freshly built from the filesystem passed in as
`new_snapshot`.  Returns the events together with the updated watcher
state. -/
def Watcher.poll (w : Watcher) (new_snapshot : Snapshot) :
    List FileEvent × Watcher :=
  if w.initialised = false then
    let events :=
      if w.config.emit_on_start then diff w.config [] new_snapshot else []
    (events, { w with snapshot := new_snapshot, initialised := true })
  else
    (diff w.config w.snapshot new_snapshot,
      { w with snapshot := new_snapshot })

/-! ## EventDatabase.purge_older_than (database.py lines 413-443) -/

/-- One row of the `file_events` table as far as the purge is concerned:
the rowid primary key and the stored `event_time` (ISO-8601 strings
compare like the timestamps they encode, so the time is an `Int`). -/
structure StoredEvent where
  id : Nat
  event_time : Int
deriving DecidableEq, Repr

/-- Ordering used by `ORDER BY event_time ASC`. -/
def timeLe (a b : StoredEvent) : Bool := decide (a.event_time ≤ b.event_time)

/-- Rows selected by the subquery
`SELECT id FROM file_events WHERE event_time < cutoff ORDER BY event_time ASC LIMIT n`:
the n oldest rows strictly older than the cutoff (ties broken by the
sort; SQLite leaves tie order unspecified, the model fixes one). -/
def purge_victims (table : List StoredEvent) (threshold : Int) (n : Nat) :
    List StoredEvent :=
  (sortLe timeLe (table.filter (fun r => decide (r.event_time < threshold)))).take n

/-- Model of `EventDatabase.purge_older_than`: with a positive limit it
deletes the rows whose ids the subquery selects; otherwise it deletes
every row older than the cutoff.  Returns the remaining table and the
deleted row count (`cursor.rowcount`). -/
def purge_older_than (table : List StoredEvent) (threshold : Int)
    (limit : Option Int) : List StoredEvent × Nat :=
  let delete_all :=
    (table.filter (fun r => decide (¬ r.event_time < threshold)),
      (table.filter (fun r => decide (r.event_time < threshold))).length)
  match limit with
  | some l =>
    if l > 0 then
      let victim_ids := (purge_victims table threshold l.toNat).map StoredEvent.id
      (table.filter (fun r => decide (r.id ∉ victim_ids)),
        (table.filter (fun r => decide (r.id ∈ victim_ids))).length)
    else delete_all
  | none => delete_all

/-! ## FileEventService scheduler (service.py) -/

/-- Outcome of one `watcher.poll()` call inside `_run_iteration`: the
events it returned, or the exception it raised. -/
abbrev PollOutcome := Except String (List FileEvent)

/-- Model of the watcher loop of `FileEventService._run_iteration`
(service.py lines 105-125) for the watchers whose deadline has elapsed:
polls are made in configuration order and their events handled; nothing
catches an exception, so a raising poll aborts the iteration. -/
def run_iteration : List PollOutcome → Except String (List (List FileEvent))
  | [] => .ok []
  | p :: rest =>
    match p with
    | .error e => .error e
    | .ok events =>
      match run_iteration rest with
      | .error e => .error e
      | .ok handled => .ok (events :: handled)

/-- Number of watchers whose `poll()` actually runs during one
iteration: everything up to and including the first raising poll. -/
def polled_count : List PollOutcome → Nat
  | [] => 0
  | .ok _ :: rest => 1 + polled_count rest
  | .error _ :: _ => 1

/-- Model of the `while` loop of `FileEventService.start` (service.py
lines 66-86): iterations run in sequence; an exception escaping
`_run_iteration` propagates through the `try`/`finally` and terminates
the loop.  Returns the number of completed iterations. -/
def start_loop : List (List PollOutcome) → Except String Nat
  | [] => .ok 0
  | it :: rest =>
    match run_iteration it with
    | .error e => .error e
    | .ok _ =>
      match start_loop rest with
      | .error e => .error e
      | .ok n => .ok (n + 1)

/-! ## Configuration parsing (config.py) -/

/-- Model of `_to_int_or_none` (config.py lines 240-247) on inputs that
are absent or integers: a negative value maps to `None`. -/
def to_int_or_none (value : Option Int) : Option Int :=
  match value with
  | none => none
  | some result => if result ≥ 0 then some result else none

/-- Model of the size-bound part of `DirectoryConfig.from_dict`
(config.py lines 111-118): parse both bounds, then raise only when both
parsed to integers and the minimum exceeds the maximum. -/
def parse_size_bounds (raw_min raw_max : Option Int) :
    Except String (Option Int × Option Int) :=
  let min_file_size := to_int_or_none raw_min
  let max_file_size := to_int_or_none raw_max
  match min_file_size, max_file_size with
  | some mn, some mx =>
    if mn > mx then .error "min_file_size cannot be greater than max_file_size"
    else .ok (some mn, some mx)
  | mn, mx => .ok (mn, mx)

/-- Model of the retention part of `DatabaseConfig.from_dict` (config.py
lines 38-41): parse, then drop non-positive values. -/
def parse_retention_days (raw : Option Int) : Option Int :=
  match to_int_or_none raw with
  | some retention_days =>
    if retention_days ≤ 0 then none else some retention_days
  | none => none

/-! ## Lemmas about the insertion sort -/

theorem perm_insertLe {α : Type} (le : α → α → Bool) (x : α) (l : List α) :
    (insertLe le x l).Perm (x :: l) := by
  induction l with
  | nil => simp [insertLe]
  | cons y ys ih =>
    simp only [insertLe]
    by_cases h : le x y = true
    · simp [h]
    · simp only [h, if_false, Bool.false_eq_true]
      exact (ih.cons y).trans (List.Perm.swap x y ys)

theorem perm_sortLe {α : Type} (le : α → α → Bool) (l : List α) :
    (sortLe le l).Perm l := by
  induction l with
  | nil => simp [sortLe]
  | cons x xs ih => exact (perm_insertLe le x (sortLe le xs)).trans (ih.cons x)

theorem mem_sortLe {α : Type} (le : α → α → Bool) (l : List α) (a : α) :
    a ∈ sortLe le l ↔ a ∈ l :=
  (perm_sortLe le l).mem_iff

theorem pairwise_insertLe {α : Type} {le : α → α → Bool}
    (htrans : ∀ a b c, le a b = true → le b c = true → le a c = true)
    (htot : ∀ a b, le a b = true ∨ le b a = true)
    (x : α) {l : List α} (h : l.Pairwise (fun a b => le a b = true)) :
    (insertLe le x l).Pairwise (fun a b => le a b = true) := by
  induction l with
  | nil => simp [insertLe]
  | cons y ys ih =>
    rcases List.pairwise_cons.mp h with ⟨hy, hys⟩
    simp only [insertLe]
    by_cases hxy : le x y = true
    · rw [if_pos hxy]
      refine List.pairwise_cons.mpr ⟨?_, h⟩
      intro b hb
      rcases List.mem_cons.mp hb with rfl | hb
      · exact hxy
      · exact htrans x y b hxy (hy b hb)
    · rw [if_neg (by simp [hxy])]
      refine List.pairwise_cons.mpr ⟨?_, ih hys⟩
      intro b hb
      have hb' : b = x ∨ b ∈ ys := by
        simpa using (perm_insertLe le x ys).mem_iff.mp hb
      rcases hb' with hbx | hb'
      · rw [hbx]
        rcases htot x y with hx | hx
        · exact absurd hx hxy
        · exact hx
      · exact hy b hb'

theorem pairwise_sortLe {α : Type} {le : α → α → Bool}
    (htrans : ∀ a b c, le a b = true → le b c = true → le a c = true)
    (htot : ∀ a b, le a b = true ∨ le b a = true) (l : List α) :
    (sortLe le l).Pairwise (fun a b => le a b = true) := by
  induction l with
  | nil => simp [sortLe]
  | cons x xs ih => exact pairwise_insertLe htrans htot x ih

theorem strLe_trans :
    ∀ a b c : String, strLe a b = true → strLe b c = true → strLe a c = true := by
  intro a b c hab hbc
  simp only [strLe, decide_eq_true_eq] at *
  exact le_trans hab hbc

theorem strLe_total : ∀ a b : String, strLe a b = true ∨ strLe b a = true := by
  intro a b
  simp only [strLe, decide_eq_true_eq]
  exact le_total a b

theorem sorted_sortLe_str (l : List String) : (sortLe strLe l).Sorted (· ≤ ·) :=
  (pairwise_sortLe strLe_trans strLe_total l).imp
    (fun h => by simpa [strLe] using h)

theorem nodup_sortLe_str {l : List String} (h : l.Nodup) :
    (sortLe strLe l).Nodup :=
  (perm_sortLe strLe l).nodup_iff.mpr h

/-! ## Lemmas about snapshots -/

@[simp] theorem snapshotKeys_nil : snapshotKeys ([] : Snapshot) = [] := rfl

@[simp] theorem snapshotKeys_cons (p : String × FileState) (rest : Snapshot) :
    snapshotKeys (p :: rest) = p.1 :: snapshotKeys rest := rfl

theorem lookupState_isSome_of_mem_keys {s : Snapshot} {k : String}
    (h : k ∈ snapshotKeys s) : ∃ v, lookupState s k = some v := by
  induction s with
  | nil => simp at h
  | cons p rest ih =>
    by_cases hk : p.1 = k
    · exact ⟨p.2, by simp [lookupState, hk]⟩
    · have h' : k ∈ snapshotKeys rest := by
        rcases List.mem_cons.mp h with h | h
        · exact absurd h.symm hk
        · exact h
      rcases ih h' with ⟨v, hv⟩
      exact ⟨v, by simp [lookupState, hk, hv]⟩

theorem mem_of_lookupState {s : Snapshot} {k : String} {v : FileState}
    (h : lookupState s k = some v) : (k, v) ∈ s := by
  induction s with
  | nil => simp [lookupState] at h
  | cons p rest ih =>
    by_cases hk : p.1 = k
    · simp only [lookupState, hk, if_pos, Option.some.injEq] at h
      have hp : p = (k, v) := Prod.ext hk h
      rw [← hp]
      exact List.mem_cons_self p rest
    · have h' : lookupState rest k = some v := by
        simpa [lookupState, hk] using h
      exact List.mem_cons_of_mem p (ih h')

theorem mem_keys_of_lookupState {s : Snapshot} {k : String} {v : FileState}
    (h : lookupState s k = some v) : k ∈ snapshotKeys s := by
  have := mem_of_lookupState h
  exact List.mem_map.mpr ⟨(k, v), this, rfl⟩

theorem lookupState_path {s : Snapshot} (hwf : SnapshotWF s) {k : String}
    {v : FileState} (h : lookupState s k = some v) : v.path = k :=
  hwf.1 (k, v) (mem_of_lookupState h)

/-! ## Lemmas about events built by the watcher -/

@[simp] theorem build_event_path (cfg : DirectoryConfig) (t : String)
    (state : FileState) : (build_event cfg t state).path = state.path := rfl

@[simp] theorem build_event_type (cfg : DirectoryConfig) (t : String)
    (state : FileState) : (build_event cfg t state).event_type = t := rfl

@[simp] theorem build_event_checksum (cfg : DirectoryConfig) (t : String)
    (state : FileState) : (build_event cfg t state).checksum = state.checksum := rfl

/-! ## Lemmas about the three groups built by the diff -/

theorem map_path_filterMap_lookup (cfg : DirectoryConfig) (t : String) {s : Snapshot}
    (hwf : SnapshotWF s) {l : List String} (hl : ∀ k ∈ l, k ∈ snapshotKeys s) :
    (l.filterMap (fun path =>
        (lookupState s path).map (fun state => build_event cfg t state))).map
      FileEvent.path = l := by
  induction l with
  | nil => simp
  | cons k ks ih =>
    rcases lookupState_isSome_of_mem_keys (hl k (List.mem_cons_self k ks)) with ⟨v, hv⟩
    have hpath : v.path = k := lookupState_path hwf hv
    simp [List.filterMap_cons, hv, hpath,
      ih (fun a ha => hl a (List.mem_cons_of_mem _ ha))]

theorem event_type_filterMap_lookup (cfg : DirectoryConfig) (t : String)
    (s : Snapshot) (l : List String) :
    ∀ e ∈ l.filterMap (fun path =>
        (lookupState s path).map (fun state => build_event cfg t state)),
      e.event_type = t := by
  intro e he
  rcases List.mem_filterMap.mp he with ⟨k, hk, hfk⟩
  rcases Option.map_eq_some'.mp hfk with ⟨v, hv, rfl⟩
  simp

theorem modified_event_eq_some {cfg : DirectoryConfig} {p c : Snapshot} {k : String}
    {e : FileEvent} (h : modified_event cfg p c k = some e) :
    ∃ old_state new_state,
      lookupState p k = some old_state ∧ lookupState c k = some new_state ∧
      has_changed cfg old_state new_state = true ∧
      e = build_event cfg "modified" new_state := by
  unfold modified_event at h
  split at h
  · rename_i old_state new_state ho hn
    split at h
    · rename_i hch
      cases h
      exact ⟨old_state, new_state, ho, hn, hch, rfl⟩
    · cases h
  · cases h

theorem modified_event_of_lookup {cfg : DirectoryConfig} {p c : Snapshot}
    {k : String} {old_state new_state : FileState}
    (ho : lookupState p k = some old_state)
    (hn : lookupState c k = some new_state) :
    modified_event cfg p c k =
      (if has_changed cfg old_state new_state
       then some (build_event cfg "modified" new_state) else none) := by
  unfold modified_event
  rw [ho, hn]

theorem map_path_filterMap_modified (cfg : DirectoryConfig) (p : Snapshot)
    {c : Snapshot} (hwfc : SnapshotWF c) (l : List String) :
    (l.filterMap (modified_event cfg p c)).map FileEvent.path
      = l.filter (fun k => (modified_event cfg p c k).isSome) := by
  induction l with
  | nil => simp
  | cons k ks ih =>
    cases hme : modified_event cfg p c k with
    | none => simp [List.filterMap_cons, hme, List.filter_cons, ih]
    | some e =>
      rcases modified_event_eq_some hme with ⟨o, n, ho, hn, hch, rfl⟩
      have hpath : n.path = k := lookupState_path hwfc hn
      simp [List.filterMap_cons, hme, List.filter_cons, ih, hpath]

theorem modified_props (cfg : DirectoryConfig) {p c : Snapshot}
    (hwfc : SnapshotWF c) (l : List String) :
    ∀ e ∈ l.filterMap (modified_event cfg p c),
      e.event_type = "modified" ∧
      e.path ∈ snapshotKeys p ∧ e.path ∈ snapshotKeys c := by
  intro e he
  rcases List.mem_filterMap.mp he with ⟨k, hk, hfk⟩
  rcases modified_event_eq_some hfk with ⟨o, n, ho, hn, hch, rfl⟩
  have hpath : n.path = k := lookupState_path hwfc hn
  refine ⟨rfl, ?_, ?_⟩ <;> rw [build_event_path, hpath]
  · exact mem_keys_of_lookupState ho
  · exact mem_keys_of_lookupState hn

/-! ## Claim C1 -/

/-- C1: for every previous and current snapshot (with the uniqueness and
path-consistency every Python dict snapshot has), `_diff` returns the
created events, then the deleted events, then the modified events;
there is exactly one created event per path present only in the current
snapshot and exactly one deleted event per path present only in the
previous snapshot, modified events concern only common paths, each of
the three groups is sorted by path in ascending order, and no path
occurs in more than one event of the result. -/
theorem diff_event_groups (cfg : DirectoryConfig) (previous current : Snapshot)
    (hp : SnapshotWF previous) (hc : SnapshotWF current) :
    ∃ cs ds ms : List FileEvent,
      diff cfg previous current = cs ++ ds ++ ms ∧
      (∀ e ∈ cs, e.event_type = "created") ∧
      (∀ e ∈ ds, e.event_type = "deleted") ∧
      (∀ e ∈ ms, e.event_type = "modified" ∧
        e.path ∈ snapshotKeys previous ∧ e.path ∈ snapshotKeys current) ∧
      (∀ k, k ∈ cs.map FileEvent.path ↔
        k ∈ snapshotKeys current ∧ k ∉ snapshotKeys previous) ∧
      (∀ k, k ∈ ds.map FileEvent.path ↔
        k ∈ snapshotKeys previous ∧ k ∉ snapshotKeys current) ∧
      (cs.map FileEvent.path).Sorted (· ≤ ·) ∧
      (ds.map FileEvent.path).Sorted (· ≤ ·) ∧
      (ms.map FileEvent.path).Sorted (· ≤ ·) ∧
      ((cs ++ ds ++ ms).map FileEvent.path).Nodup := by
  classical
  have hlc : ∀ k ∈ sortLe strLe ((snapshotKeys current).filter
      (fun k => decide (k ∉ snapshotKeys previous))), k ∈ snapshotKeys current := by
    intro k hk
    exact (List.mem_filter.mp ((mem_sortLe _ _ k).mp hk)).1
  have hld : ∀ k ∈ sortLe strLe ((snapshotKeys previous).filter
      (fun k => decide (k ∉ snapshotKeys current))), k ∈ snapshotKeys previous := by
    intro k hk
    exact (List.mem_filter.mp ((mem_sortLe _ _ k).mp hk)).1
  have hcsmap := map_path_filterMap_lookup cfg "created" hc hlc
  have hdsmap := map_path_filterMap_lookup cfg "deleted" hp hld
  have hmsmap := map_path_filterMap_modified cfg previous hc
      (sortLe strLe ((snapshotKeys previous).filter
        (fun k => decide (k ∈ snapshotKeys current))))
  refine ⟨_, _, _, rfl, ?_, ?_, ?_, ?_, ?_, ?_, ?_, ?_, ?_⟩
  · exact event_type_filterMap_lookup cfg "created" current _
  · exact event_type_filterMap_lookup cfg "deleted" previous _
  · exact modified_props cfg hc _
  · intro k
    rw [hcsmap, mem_sortLe, List.mem_filter]
    simp
  · intro k
    rw [hdsmap, mem_sortLe, List.mem_filter]
    simp
  · rw [hcsmap]
    exact sorted_sortLe_str _
  · rw [hdsmap]
    exact sorted_sortLe_str _
  · rw [hmsmap]
    exact List.Pairwise.filter _ (sorted_sortLe_str _)
  · have hnc : (sortLe strLe ((snapshotKeys current).filter
        (fun k => decide (k ∉ snapshotKeys previous)))).Nodup :=
      nodup_sortLe_str (hc.2.filter _)
    have hnd : (sortLe strLe ((snapshotKeys previous).filter
        (fun k => decide (k ∉ snapshotKeys current)))).Nodup :=
      nodup_sortLe_str (hp.2.filter _)
    have hnm : ((sortLe strLe ((snapshotKeys previous).filter
        (fun k => decide (k ∈ snapshotKeys current)))).filter
          (fun k => (modified_event cfg previous current k).isSome)).Nodup :=
      (nodup_sortLe_str (hp.2.filter _)).filter _
    rw [List.map_append, List.map_append, hcsmap, hdsmap, hmsmap,
      List.nodup_append, List.nodup_append]
    refine ⟨⟨hnc, hnd, ?_⟩, hnm, ?_⟩
    · intro a hac had
      have h1 := List.mem_filter.mp ((mem_sortLe _ _ a).mp hac)
      have h2 := List.mem_filter.mp ((mem_sortLe _ _ a).mp had)
      exact (by simpa using h1.2 : a ∉ snapshotKeys previous) h2.1
    · intro a ha ham
      have hm := List.mem_filter.mp
        ((mem_sortLe _ _ a).mp (List.mem_filter.mp ham).1)
      have hmPrev : a ∈ snapshotKeys previous := hm.1
      have hmCur : a ∈ snapshotKeys current := by simpa using hm.2
      rcases List.mem_append.mp ha with hac | had
      · have h1 := List.mem_filter.mp ((mem_sortLe _ _ a).mp hac)
        exact (by simpa using h1.2 : a ∉ snapshotKeys previous) hmPrev
      · have h2 := List.mem_filter.mp ((mem_sortLe _ _ a).mp had)
        exact (by simpa using h2.2 : a ∉ snapshotKeys current) hmCur

/-! ## Lemmas about has_changed and further diff facts -/

theorem has_changed_iff (cfg : DirectoryConfig) (o n : FileState) :
    has_changed cfg o n = true ↔
      (o.size ≠ n.size ∨ o.modified_at ≠ n.modified_at ∨
        (cfg.compute_checksum = true ∧ o.checksum ≠ n.checksum)) := by
  unfold has_changed
  rcases Decidable.em (o.size = n.size) with h1 | h1 <;>
    rcases Decidable.em (o.modified_at = n.modified_at) with h2 | h2 <;>
      cases hcc : cfg.compute_checksum <;>
        rcases Decidable.em (o.checksum = n.checksum) with h3 | h3 <;>
          simp [h1, h2, h3, hcc, bne_iff_ne]

theorem has_changed_self (cfg : DirectoryConfig) (v : FileState) :
    has_changed cfg v v = false := by
  unfold has_changed
  simp

theorem created_part_mem {cfg : DirectoryConfig} {s : Snapshot} (hwf : SnapshotWF s)
    {l : List String} {t : String} {e : FileEvent}
    (he : e ∈ l.filterMap (fun path =>
        (lookupState s path).map (fun state => build_event cfg t state))) :
    e.path ∈ l ∧ e.event_type = t := by
  rcases List.mem_filterMap.mp he with ⟨a, ha, hfa⟩
  rcases Option.map_eq_some'.mp hfa with ⟨v, hv, rfl⟩
  have hva : v.path = a := lookupState_path hwf hv
  simp [hva, ha]

/-! ## Claim C2 -/

/-- C2: for a path present in both snapshots, the diff emits an event for
that path exactly when size differs, or mtime differs, or checksums are
enabled and the checksums differ; any event the diff emits for a common
path is a modified event.  In particular, with checksums disabled,
equal size and mtime but different checksums produce no event. -/
theorem diff_modified_iff (cfg : DirectoryConfig) (previous current : Snapshot)
    (hp : SnapshotWF previous) (hc : SnapshotWF current)
    (k : String) (old_state new_state : FileState)
    (ho : lookupState previous k = some old_state)
    (hn : lookupState current k = some new_state) :
    ((∃ e ∈ diff cfg previous current, e.path = k) ↔
      (old_state.size ≠ new_state.size ∨
       old_state.modified_at ≠ new_state.modified_at ∨
       (cfg.compute_checksum = true ∧ old_state.checksum ≠ new_state.checksum))) ∧
    (∀ e ∈ diff cfg previous current, e.path = k → e.event_type = "modified") := by
  classical
  have hkp : k ∈ snapshotKeys previous := mem_keys_of_lookupState ho
  have hkc : k ∈ snapshotKeys current := mem_keys_of_lookupState hn
  have hsplit : ∀ e, e ∈ diff cfg previous current ↔
      (e ∈ (sortLe strLe ((snapshotKeys current).filter
          (fun a => decide (a ∉ snapshotKeys previous)))).filterMap
          (fun path => (lookupState current path).map
            (fun state => build_event cfg "created" state)) ∨
       e ∈ (sortLe strLe ((snapshotKeys previous).filter
          (fun a => decide (a ∉ snapshotKeys current)))).filterMap
          (fun path => (lookupState previous path).map
            (fun state => build_event cfg "deleted" state)) ∨
       e ∈ (sortLe strLe ((snapshotKeys previous).filter
          (fun a => decide (a ∈ snapshotKeys current)))).filterMap
          (modified_event cfg previous current)) := by
    intro e
    unfold diff
    rw [List.mem_append, List.mem_append, or_assoc]
  have hnot_cs : ∀ e, e.path = k →
      e ∉ (sortLe strLe ((snapshotKeys current).filter
          (fun a => decide (a ∉ snapshotKeys previous)))).filterMap
          (fun path => (lookupState current path).map
            (fun state => build_event cfg "created" state)) := by
    intro e hpath he
    rcases created_part_mem hc he with ⟨hmem, _⟩
    have := (List.mem_filter.mp ((mem_sortLe _ _ _).mp hmem)).2
    rw [hpath] at this
    have hnotp : k ∉ snapshotKeys previous := by simpa using this
    exact hnotp hkp
  have hnot_ds : ∀ e, e.path = k →
      e ∉ (sortLe strLe ((snapshotKeys previous).filter
          (fun a => decide (a ∉ snapshotKeys current)))).filterMap
          (fun path => (lookupState previous path).map
            (fun state => build_event cfg "deleted" state)) := by
    intro e hpath he
    rcases created_part_mem hp he with ⟨hmem, _⟩
    have := (List.mem_filter.mp ((mem_sortLe _ _ _).mp hmem)).2
    rw [hpath] at this
    have hnotc : k ∉ snapshotKeys current := by simpa using this
    exact hnotc hkc
  constructor
  · constructor
    · rintro ⟨e, he, hpath⟩
      rcases (hsplit e).mp he with hcs | hds | hms
      · exact absurd hcs (hnot_cs e hpath)
      · exact absurd hds (hnot_ds e hpath)
      · rcases List.mem_filterMap.mp hms with ⟨a, ha, hfa⟩
        rcases modified_event_eq_some hfa with ⟨o, n, ho2, hn2, hch, rfl⟩
        have hna : n.path = a := lookupState_path hc hn2
        have hak : a = k := by
          rw [← hna, ← hpath]
          rfl
        rw [hak] at ho2 hn2
        have hoo : o = old_state := by
          have := ho2.symm.trans ho
          exact Option.some.inj this
        have hnn : n = new_state := by
          have := hn2.symm.trans hn
          exact Option.some.inj this
        rw [hoo, hnn] at hch
        exact (has_changed_iff cfg old_state new_state).mp hch
    · intro hrhs
      have hch : has_changed cfg old_state new_state = true :=
        (has_changed_iff cfg old_state new_state).mpr hrhs
      have hme : modified_event cfg previous current k
          = some (build_event cfg "modified" new_state) := by
        rw [modified_event_of_lookup ho hn, if_pos hch]
      have hkmem : k ∈ sortLe strLe ((snapshotKeys previous).filter
          (fun a => decide (a ∈ snapshotKeys current))) := by
        rw [mem_sortLe, List.mem_filter]
        exact ⟨hkp, by simpa using hkc⟩
      refine ⟨build_event cfg "modified" new_state, ?_, ?_⟩
      · exact (hsplit _).mpr (Or.inr (Or.inr
          (List.mem_filterMap.mpr ⟨k, hkmem, hme⟩)))
      · rw [build_event_path]
        exact lookupState_path hc hn
  · intro e he hpath
    rcases (hsplit e).mp he with hcs | hds | hms
    · exact absurd hcs (hnot_cs e hpath)
    · exact absurd hds (hnot_ds e hpath)
    · exact (modified_props cfg hc _ e hms).1

/-! ## Claim C3 -/

theorem diff_nil_left (cfg : DirectoryConfig) (s : Snapshot) :
    diff cfg [] s = (sortLe strLe (snapshotKeys s)).filterMap
      (fun path => (lookupState s path).map
        (fun state => build_event cfg "created" state)) := by
  unfold diff
  simp [sortLe, modified_event]

/-- C3: on the first poll of a freshly constructed watcher (initialised
is false, as `__init__` leaves it), the built snapshot becomes the
stored baseline; with `emit_on_start = false` the poll returns no
events, and with `emit_on_start = true` it returns exactly one
`created` event per entry of the built snapshot. -/
theorem first_poll_spec (w : Watcher) (hinit : w.initialised = false)
    (s : Snapshot) (hwf : SnapshotWF s) :
    (w.poll s).2 = { w with snapshot := s, initialised := true } ∧
    (w.config.emit_on_start = false → (w.poll s).1 = []) ∧
    (w.config.emit_on_start = true →
      (w.poll s).1.length = s.length ∧
      (∀ e ∈ (w.poll s).1, e.event_type = "created") ∧
      ((w.poll s).1.map FileEvent.path).Perm (snapshotKeys s)) := by
  have hl : ∀ k ∈ sortLe strLe (snapshotKeys s), k ∈ snapshotKeys s := by
    intro k hk
    exact (mem_sortLe _ _ _).mp hk
  refine ⟨?_, ?_, ?_⟩
  · simp [Watcher.poll, hinit]
  · intro hemit
    simp [Watcher.poll, hinit, hemit]
  · intro hemit
    have hpoll : (w.poll s).1 = diff w.config [] s := by
      simp [Watcher.poll, hinit, hemit]
    rw [hpoll, diff_nil_left]
    have hmap := map_path_filterMap_lookup w.config "created" hwf hl
    refine ⟨?_, ?_, ?_⟩
    · have h1 := congrArg List.length hmap
      rw [List.length_map] at h1
      rw [h1, (perm_sortLe strLe (snapshotKeys s)).length_eq]
      simp [snapshotKeys]
    · exact event_type_filterMap_lookup w.config "created" s _
    · rw [hmap]
      exact perm_sortLe strLe (snapshotKeys s)

/-! ## Claim C7 -/

/-- C7: a poll of an already initialised watcher whose freshly built
snapshot is equal (as a dictionary: same keys, same values) to the
stored snapshot returns the empty event list. -/
theorem poll_no_change (w : Watcher) (hinit : w.initialised = true)
    (s : Snapshot)
    (hkeys : ∀ k, k ∈ snapshotKeys w.snapshot ↔ k ∈ snapshotKeys s)
    (hvals : ∀ k, lookupState w.snapshot k = lookupState s k) :
    (w.poll s).1 = [] := by
  classical
  have hpoll : (w.poll s).1 = diff w.config w.snapshot s := by
    simp [Watcher.poll, hinit]
  have hcreated : (snapshotKeys s).filter
      (fun k => decide (k ∉ snapshotKeys w.snapshot)) = [] := by
    rw [List.filter_eq_nil_iff]
    intro a ha
    simp [(hkeys a).mpr ha]
  have hdeleted : (snapshotKeys w.snapshot).filter
      (fun k => decide (k ∉ snapshotKeys s)) = [] := by
    rw [List.filter_eq_nil_iff]
    intro a ha
    simp [(hkeys a).mp ha]
  have hmod : ∀ k ∈ sortLe strLe ((snapshotKeys w.snapshot).filter
      (fun k => decide (k ∈ snapshotKeys s))),
      modified_event w.config w.snapshot s k = none := by
    intro k hk
    have hkp : k ∈ snapshotKeys w.snapshot :=
      (List.mem_filter.mp ((mem_sortLe _ _ _).mp hk)).1
    rcases lookupState_isSome_of_mem_keys hkp with ⟨v, hv⟩
    have hv2 : lookupState s k = some v := (hvals k).symm.trans hv
    rw [modified_event_of_lookup hv hv2, has_changed_self, if_neg]
    simp
  rw [hpoll]
  simp only [diff]
  rw [hcreated, hdeleted]
  simp only [sortLe, List.filterMap_nil, List.nil_append, List.append_nil]
  rw [List.filterMap_eq_nil_iff]
  exact hmod

/-! ## Claim C8 -/

theorem passes_size_filter_iff (cfg : DirectoryConfig) (size : Int) :
    passes_size_filter cfg size = true ↔
      ((∀ mn, cfg.min_file_size = some mn → mn ≤ size) ∧
       (∀ mx, cfg.max_file_size = some mx → size ≤ mx)) := by
  unfold passes_size_filter
  cases hmin : cfg.min_file_size <;> cases hmax : cfg.max_file_size <;>
    simp [Option.any] <;> try omega

/-- C8: both size bounds are inclusive: a file of exactly the minimum
(resp. maximum) size passes the filter, one byte below the minimum or
above the maximum is rejected, and an unset bound imposes no
constraint.  The passing parts at the boundaries assume the
configuration invariant min ≤ max when both bounds are set. -/
theorem size_filter_boundary (cfg : DirectoryConfig)
    (hcompat : ∀ mn mx : Int, cfg.min_file_size = some mn →
      cfg.max_file_size = some mx → mn ≤ mx) :
    (∀ size : Int, passes_size_filter cfg size = true ↔
      ((∀ mn, cfg.min_file_size = some mn → mn ≤ size) ∧
       (∀ mx, cfg.max_file_size = some mx → size ≤ mx))) ∧
    (∀ mn, cfg.min_file_size = some mn →
      passes_size_filter cfg mn = true ∧
      passes_size_filter cfg (mn - 1) = false) ∧
    (∀ mx, cfg.max_file_size = some mx →
      passes_size_filter cfg mx = true ∧
      passes_size_filter cfg (mx + 1) = false) ∧
    (cfg.min_file_size = none → cfg.max_file_size = none →
      ∀ size : Int, passes_size_filter cfg size = true) := by
  refine ⟨passes_size_filter_iff cfg, ?_, ?_, ?_⟩
  · intro mn hmn
    constructor
    · refine (passes_size_filter_iff cfg mn).mpr ⟨?_, ?_⟩
      · intro mn' h
        rw [hmn] at h
        cases h
        exact le_refl mn
      · intro mx h
        exact hcompat mn mx hmn h
    · cases hpass : passes_size_filter cfg (mn - 1) with
      | false => rfl
      | true =>
        have := ((passes_size_filter_iff cfg (mn - 1)).mp hpass).1 mn hmn
        omega
  · intro mx hmx
    constructor
    · refine (passes_size_filter_iff cfg mx).mpr ⟨?_, ?_⟩
      · intro mn h
        exact hcompat mn mx h hmx
      · intro mx' h
        rw [hmx] at h
        cases h
        exact le_refl mx
    · cases hpass : passes_size_filter cfg (mx + 1) with
      | false => rfl
      | true =>
        have := ((passes_size_filter_iff cfg (mx + 1)).mp hpass).2 mx hmx
        omega
  · intro hmn hmx size
    refine (passes_size_filter_iff cfg size).mpr ⟨?_, ?_⟩
    · intro mn h
      rw [hmn] at h
      cases h
    · intro mx h
      rw [hmx] at h
      cases h

/-! ## Claim C9 -/

theorem poll_stores_snapshot (w : Watcher) (s : Snapshot) :
    (w.poll s).2.snapshot = s := by
  by_cases h : w.initialised = false <;> simp [Watcher.poll, h]

theorem poll_sets_initialised (w : Watcher) (s : Snapshot) :
    (w.poll s).2.initialised = true := by
  cases h : w.initialised <;> simp [Watcher.poll, h]

/-- C9: when the configured root directory does not exist at poll time,
`_build_snapshot` returns the empty snapshot (without raising: the
model is a total function, matching the early return on the
`not root.exists()` branch), that empty snapshot becomes the stored
baseline, and a subsequent poll proceeds normally, storing whatever
snapshot the next build produces. -/
theorem missing_root_poll (w : Watcher) (consider : String → Bool)
    (fs : Filesystem) (hroot : fs.root_exists = false) :
    build_snapshot w consider fs = [] ∧
    (w.poll (build_snapshot w consider fs)).2.snapshot = [] ∧
    (w.poll (build_snapshot w consider fs)).2.initialised = true ∧
    (∀ s2 : Snapshot,
      ((w.poll (build_snapshot w consider fs)).2.poll s2).2.snapshot = s2) := by
  have hempty : build_snapshot w consider fs = [] := by
    simp [build_snapshot, hroot]
  refine ⟨hempty, ?_, poll_sets_initialised w _, ?_⟩
  · rw [poll_stores_snapshot, hempty]
  · intro s2
    rw [poll_stores_snapshot]

/-! ## Claim C10 -/

/-- C10: a negative integer for `min_file_size`, `max_file_size` or
`retention_days` parses to `None` (silently disabling the bound or
retention), so the fatal min-greater-than-max check cannot fire when
either bound is negative. -/
theorem negative_bounds_disabled (n : Int) (hneg : n < 0) :
    to_int_or_none (some n) = none ∧
    parse_retention_days (some n) = none ∧
    (∀ raw_max : Option Int, parse_size_bounds (some n) raw_max
      = Except.ok (none, to_int_or_none raw_max)) ∧
    (∀ raw_min : Option Int, parse_size_bounds raw_min (some n)
      = Except.ok (to_int_or_none raw_min, none)) := by
  have hnone : to_int_or_none (some n) = none := by
    simp only [to_int_or_none]
    rw [if_neg (by omega)]
  refine ⟨hnone, ?_, ?_, ?_⟩
  · unfold parse_retention_days
    rw [hnone]
  · intro raw_max
    unfold parse_size_bounds
    rw [hnone]
  · intro raw_min
    unfold parse_size_bounds
    rw [hnone]
    cases to_int_or_none raw_min <;> rfl

/-! ## Claim C4 -/

/-- C4 counterexample: with two managed watchers where the first poll
raises, the iteration does not poll the second watcher (only 1 of 2
polls run) and the exception escapes `_run_iteration` and terminates
the run loop, contradicting the claim that the scheduler catches the
exception, polls the remaining watchers and keeps looping. -/
theorem scheduler_fault_isolation_counterexample :
    (¬ ∀ polls : List PollOutcome, polled_count polls = polls.length) ∧
    run_iteration [Except.error "boom", Except.ok []] = Except.error "boom" ∧
    polled_count [Except.error "boom", Except.ok []] = 1 ∧
    start_loop [[Except.error "boom", Except.ok []], [Except.ok []]]
      = Except.error "boom" := by
  refine ⟨?_, rfl, rfl, rfl⟩
  intro h
  have := h [Except.error "boom", Except.ok []]
  simp [polled_count] at this

theorem run_iteration_error_aux (e : String) (post : List PollOutcome) :
    ∀ pre : List PollOutcome, (∀ p ∈ pre, ∃ evs, p = Except.ok evs) →
      run_iteration (pre ++ Except.error e :: post) = Except.error e ∧
      polled_count (pre ++ Except.error e :: post) = pre.length + 1 := by
  intro pre
  induction pre with
  | nil => exact fun _ => ⟨rfl, rfl⟩
  | cons p ps ih =>
    intro hpre
    obtain ⟨evs, rfl⟩ := hpre p (List.mem_cons_self p ps)
    have hps : ∀ q ∈ ps, ∃ evs2, q = Except.ok evs2 :=
      fun q hq => hpre q (List.mem_cons_of_mem _ hq)
    rcases ih hps with ⟨h1, h2⟩
    constructor
    · simp only [List.cons_append, run_iteration, List.append_eq, h1]
    · simp only [List.cons_append, polled_count, List.append_eq, h2,
        List.length_cons]
      omega

/-- C4 amended: an exception raised by one watcher's `poll()` is not
caught by the scheduler: the watchers before it in configuration order
have been polled, the remaining watchers of the iteration are not
polled, the exception propagates out of `_run_iteration`, and the run
loop terminates with it instead of continuing to later iterations. -/
theorem scheduler_poll_exception_propagates
    (pre post : List PollOutcome) (e : String)
    (hpre : ∀ p ∈ pre, ∃ evs, p = Except.ok evs)
    (iters : List (List PollOutcome)) :
    run_iteration (pre ++ Except.error e :: post) = Except.error e ∧
    polled_count (pre ++ Except.error e :: post) = pre.length + 1 ∧
    start_loop ((pre ++ Except.error e :: post) :: iters) = Except.error e := by
  rcases run_iteration_error_aux e post pre hpre with ⟨h1, h2⟩
  refine ⟨h1, h2, ?_⟩
  simp only [start_loop, h1]

/-! ## Claim C6 -/

theorem compute_checksum_read_error (algorithm err : String) :
    compute_checksum algorithm (Except.error err) = none := by
  cases h : hashlib_new algorithm <;> simp [compute_checksum, h]

theorem lookupState_insertEntry_self (s : Snapshot) (k : String) (v : FileState) :
    lookupState (insertEntry s k v) k = some v := by
  induction s with
  | nil => simp [insertEntry, lookupState]
  | cons p rest ih =>
    by_cases hk : p.1 = k
    · simp [insertEntry, hk, lookupState]
    · simp [insertEntry, hk, lookupState, ih]

theorem lookupState_insertEntry_other (s : Snapshot) (k k2 : String)
    (v : FileState) (hne : k2 ≠ k) :
    lookupState (insertEntry s k v) k2 = lookupState s k2 := by
  induction s with
  | nil => simp [insertEntry, lookupState, Ne.symm hne]
  | cons p rest ih =>
    by_cases hk : p.1 = k
    · have hp2 : p.1 ≠ k2 := by
        rw [hk]
        exact Ne.symm hne
      simp [insertEntry, hk, lookupState, Ne.symm hne, hp2]
    · simp [insertEntry, hk, lookupState, ih]

theorem lookupState_snapshot_step_other (w : Watcher) (consider : String → Bool)
    (acc : Snapshot) (entry : FsEntry) (k : String) (hne : k ≠ entry.path) :
    lookupState (snapshot_step w consider acc entry) k = lookupState acc k := by
  unfold snapshot_step
  by_cases h1 : consider entry.path = false
  · simp [h1]
  · by_cases h2 : entry.stat_ok = false
    · simp [h1, h2]
    · by_cases h3 : passes_size_filter w.config entry.size = false
      · simp [h1, h2, h3]
      · simp [h1, h2, h3, lookupState_insertEntry_other _ _ _ _ hne]

theorem lookupState_foldl_not_mem (w : Watcher) (consider : String → Bool)
    (files : List FsEntry) (acc : Snapshot) (k : String)
    (hk : ∀ e ∈ files, e.path ≠ k) :
    lookupState (files.foldl (snapshot_step w consider) acc) k
      = lookupState acc k := by
  induction files generalizing acc with
  | nil => rfl
  | cons f rest ih =>
    rw [List.foldl_cons, ih _ (fun e he => hk e (List.mem_cons_of_mem _ he))]
    exact lookupState_snapshot_step_other w consider acc f k
      (fun h => hk f (List.mem_cons_self f rest) h.symm)

theorem lookupState_foldl_mem (w : Watcher) (consider : String → Bool)
    (files : List FsEntry) (acc : Snapshot)
    (hnodup : (files.map FsEntry.path).Nodup)
    (entry : FsEntry) (hmem : entry ∈ files)
    (hcons : consider entry.path = true)
    (hstat : entry.stat_ok = true)
    (hsize : passes_size_filter w.config entry.size = true) :
    lookupState (files.foldl (snapshot_step w consider) acc) entry.path =
      some { path := entry.path, modified_at := entry.mtime, size := entry.size,
             checksum := if w.config.compute_checksum
               then compute_checksum w.checksum_algorithm entry.read_result
               else none } := by
  induction files generalizing acc with
  | nil => cases hmem
  | cons f rest ih =>
    have hnodup2 : (rest.map FsEntry.path).Nodup :=
      (List.nodup_cons.mp (by simpa using hnodup)).2
    rcases List.mem_cons.mp hmem with rfl | hmem2
    · rw [List.foldl_cons]
      have hnotin : entry.path ∉ rest.map FsEntry.path :=
        (List.nodup_cons.mp (by simpa using hnodup)).1
      have hrest : ∀ e ∈ rest, e.path ≠ entry.path := by
        intro e he heq
        exact hnotin (heq ▸ List.mem_map_of_mem FsEntry.path he)
      rw [lookupState_foldl_not_mem w consider rest _ entry.path hrest]
      unfold snapshot_step
      simp [hcons, hstat, hsize, lookupState_insertEntry_self]
    · rw [List.foldl_cons]
      exact ih _ hnodup2 hmem2

/-- C6 main lemma: a file the walk finds, which passes filtering, whose
stat succeeds and which passes the size bounds, appears in the built
snapshot with exactly its observed metadata (and a checksum only when
configured). -/
theorem lookupState_build_snapshot (w : Watcher) (consider : String → Bool)
    (fs : Filesystem) (hroot : fs.root_exists = true)
    (hnodup : (fs.files.map FsEntry.path).Nodup)
    (entry : FsEntry) (hmem : entry ∈ fs.files)
    (hcons : consider entry.path = true)
    (hstat : entry.stat_ok = true)
    (hsize : passes_size_filter w.config entry.size = true) :
    lookupState (build_snapshot w consider fs) entry.path =
      some { path := entry.path, modified_at := entry.mtime, size := entry.size,
             checksum := if w.config.compute_checksum
               then compute_checksum w.checksum_algorithm entry.read_result
               else none } := by
  have hbuild : build_snapshot w consider fs
      = fs.files.foldl (snapshot_step w consider) [] := by
    simp [build_snapshot, hroot]
  rw [hbuild]
  exact lookupState_foldl_mem w consider fs.files [] hnodup entry hmem
    hcons hstat hsize

/-- C6 counterexample: with checksum computation disabled (the default),
a watcher is constructed successfully even though the algorithm name
"nope" is one `hashlib.new` rejects — so an unsupported checksum
algorithm is not a construction-time error for every directory
configuration. -/
theorem watcher_init_no_validation_counterexample :
    hashlib_new "nope" = Except.error "unsupported hash type nope" ∧
    Watcher.init { path := "/crm" } "nope"
      = Except.ok
          { config := { path := "/crm" }
            checksum_algorithm := "nope"
            snapshot := []
            initialised := false } := by
  constructor
  · rfl
  · rfl

/-- C6 amended: when checksum computation is enabled in the
configuration, construction fails exactly when the algorithm name is
unsupported (fail fast); independently, a failed content read never
yields a checksum, and an entry whose read fails still lands in the
built snapshot, with `none` recorded as its checksum, the build
running to completion. -/
theorem checksum_error_handling (cfg : DirectoryConfig) (algorithm : String)
    (hcc : cfg.compute_checksum = true) :
    ((∃ e, Watcher.init cfg algorithm = Except.error e) ↔
      algorithm ∉ hashlib_algorithms) ∧
    (∀ err : String, compute_checksum algorithm (Except.error err) = none) ∧
    (∀ w : Watcher, w.config = cfg → w.checksum_algorithm = algorithm →
      ∀ (consider : String → Bool) (fs : Filesystem),
        fs.root_exists = true →
        (fs.files.map FsEntry.path).Nodup →
        ∀ entry ∈ fs.files, ∀ err : String,
          entry.read_result = Except.error err →
          consider entry.path = true →
          entry.stat_ok = true →
          passes_size_filter cfg entry.size = true →
          lookupState (build_snapshot w consider fs) entry.path =
            some { path := entry.path, modified_at := entry.mtime,
                   size := entry.size, checksum := none }) := by
  refine ⟨?_, compute_checksum_read_error algorithm, ?_⟩
  · by_cases halg : algorithm ∈ hashlib_algorithms <;>
      simp [Watcher.init, hcc, hashlib_new, halg]
  · intro w hwcfg hwalg consider fs hroot hnodup entry hmem err hread
      hcons hstat hsize
    have h := lookupState_build_snapshot w consider fs hroot hnodup entry hmem
      hcons hstat (by rw [hwcfg]; exact hsize)
    rw [hwcfg, hcc, hwalg, hread] at h
    simpa [compute_checksum_read_error] using h

/-! ## Claim C5 -/

theorem timeLe_trans : ∀ a b c : StoredEvent,
    timeLe a b = true → timeLe b c = true → timeLe a c = true := by
  intro a b c h1 h2
  simp only [timeLe, decide_eq_true_eq] at *
  omega

theorem timeLe_total : ∀ a b : StoredEvent,
    timeLe a b = true ∨ timeLe b a = true := by
  intro a b
  simp only [timeLe, decide_eq_true_eq]
  omega

theorem length_filter_compl {α : Type} (p : α → Bool) (l : List α) :
    (l.filter p).length + (l.filter (fun a => !(p a))).length = l.length := by
  induction l with
  | nil => rfl
  | cons x xs ih =>
    cases h : p x <;> simp [List.filter_cons, h] <;> omega

theorem pairwise_take_drop {α : Type} {R : α → α → Prop} {l : List α}
    (h : l.Pairwise R) (n : Nat) {a b : α}
    (ha : a ∈ l.take n) (hb : b ∈ l.drop n) : R a b := by
  have h2 : (l.take n ++ l.drop n).Pairwise R := by
    rw [List.take_append_drop]
    exact h
  exact (List.pairwise_append.mp h2).2.2 a ha b hb

theorem purge_victims_mem {table : List StoredEvent} {threshold : Int}
    {n : Nat} : ∀ v ∈ purge_victims table threshold n,
      v ∈ table ∧ v.event_time < threshold := by
  intro v hv
  have h1 := List.mem_of_mem_take hv
  have h3 := List.mem_filter.mp ((mem_sortLe _ _ _).mp h1)
  exact ⟨h3.1, by simpa using h3.2⟩

theorem purge_victims_length (table : List StoredEvent) (threshold : Int)
    (n : Nat) : (purge_victims table threshold n).length ≤ n :=
  List.length_take_le n _

theorem purge_limit_props (table : List StoredEvent) (threshold : Int)
    (hids : (table.map StoredEvent.id).Nodup) (l : Int) (hl : 0 < l) :
    (∀ r ∈ table, r ∉ (purge_older_than table threshold (some l)).1 →
        r.event_time < threshold) ∧
    ((purge_older_than table threshold (some l)).1.filter
        (fun r => decide (¬ r.event_time < threshold))
      = table.filter (fun r => decide (¬ r.event_time < threshold))) ∧
    ((purge_older_than table threshold (some l)).2
      = table.length - (purge_older_than table threshold (some l)).1.length) ∧
    ((purge_older_than table threshold (some l)).2 ≤ l.toNat) ∧
    (∀ d ∈ table, d ∉ (purge_older_than table threshold (some l)).1 →
      ∀ k ∈ (purge_older_than table threshold (some l)).1,
        k.event_time < threshold → d.event_time ≤ k.event_time) := by
  classical
  have hp1 : (purge_older_than table threshold (some l)).1
      = table.filter (fun r => decide (r.id ∉
          (purge_victims table threshold l.toNat).map StoredEvent.id)) := by
    simp only [purge_older_than]
    rw [if_pos hl]
  have hp2 : (purge_older_than table threshold (some l)).2
      = (table.filter (fun r => decide (r.id ∈
          (purge_victims table threshold l.toNat).map StoredEvent.id))).length := by
    simp only [purge_older_than]
    rw [if_pos hl]
  have hmem_vic : ∀ r ∈ table,
      r.id ∈ (purge_victims table threshold l.toNat).map StoredEvent.id →
      r ∈ purge_victims table threshold l.toNat := by
    intro r hr hid
    rcases List.mem_map.mp hid with ⟨v, hv, hvid⟩
    have hvt := (purge_victims_mem v hv).1
    have hvr : v = r := List.inj_on_of_nodup_map hids hvt hr hvid
    exact hvr ▸ hv
  have hdel_id : ∀ r ∈ table, r ∉ (purge_older_than table threshold (some l)).1 →
      r.id ∈ (purge_victims table threshold l.toNat).map StoredEvent.id := by
    intro r hr hrem
    rw [hp1] at hrem
    by_contra hno
    exact hrem (List.mem_filter.mpr ⟨hr, by simpa using hno⟩)
  refine ⟨?_, ?_, ?_, ?_, ?_⟩
  · intro r hr hrem
    exact (purge_victims_mem r (hmem_vic r hr (hdel_id r hr hrem))).2
  · rw [hp1, List.filter_filter]
    apply List.filter_congr
    intro r hr
    by_cases hold : r.event_time < threshold
    · simp [hold]
    · have hnid : r.id ∉ (purge_victims table threshold l.toNat).map
          StoredEvent.id := by
        intro hid
        exact hold ((purge_victims_mem r (hmem_vic r hr hid)).2)
      simp [hold, hnid]
  · rw [hp1, hp2]
    have hcompl := length_filter_compl
      (fun r => decide (r.id ∈
        (purge_victims table threshold l.toNat).map StoredEvent.id)) table
    have hfun : table.filter (fun r => decide (r.id ∉
          (purge_victims table threshold l.toNat).map StoredEvent.id))
        = table.filter (fun r => !(decide (r.id ∈
          (purge_victims table threshold l.toNat).map StoredEvent.id))) := by
      apply List.filter_congr
      intro r hr
      simp only [decide_not]
    rw [hfun]
    omega
  · rw [hp2]
    have hsub : (table.filter (fun r => decide (r.id ∈
          (purge_victims table threshold l.toNat).map StoredEvent.id))).map
          StoredEvent.id
        ⊆ (purge_victims table threshold l.toNat).map StoredEvent.id := by
      intro i hi
      rcases List.mem_map.mp hi with ⟨r, hr, rfl⟩
      have := (List.mem_filter.mp hr).2
      simpa using this
    have hnd : ((table.filter (fun r => decide (r.id ∈
          (purge_victims table threshold l.toNat).map StoredEvent.id))).map
          StoredEvent.id).Nodup :=
      (List.Sublist.map StoredEvent.id (List.filter_sublist table)).nodup hids
    have hle := (hnd.subperm hsub).length_le
    rw [List.length_map, List.length_map] at hle
    exact le_trans hle (purge_victims_length table threshold l.toNat)
  · intro d hd hdrem k hk hkold
    have hdv : d ∈ purge_victims table threshold l.toNat :=
      hmem_vic d hd (hdel_id d hd hdrem)
    rw [hp1] at hk
    have hktab : k ∈ table := (List.mem_filter.mp hk).1
    have hknid : k.id ∉ (purge_victims table threshold l.toNat).map
        StoredEvent.id := by
      have := (List.mem_filter.mp hk).2
      simpa using this
    have hknv : k ∉ purge_victims table threshold l.toNat :=
      fun hkv => hknid (List.mem_map_of_mem StoredEvent.id hkv)
    have hksort : k ∈ sortLe timeLe
        (table.filter (fun r => decide (r.event_time < threshold))) :=
      (mem_sortLe _ _ _).mpr
        (List.mem_filter.mpr ⟨hktab, by simpa using hkold⟩)
    have hkdrop : k ∈ (sortLe timeLe
        (table.filter (fun r => decide (r.event_time < threshold)))).drop
          l.toNat := by
      rw [← List.take_append_drop l.toNat (sortLe timeLe
        (table.filter (fun r => decide (r.event_time < threshold))))] at hksort
      rcases List.mem_append.mp hksort with h | h
      · exact absurd h hknv
      · exact h
    have hpair := pairwise_sortLe timeLe_trans timeLe_total
      (table.filter (fun r => decide (r.event_time < threshold)))
    have := pairwise_take_drop hpair l.toNat hdv hkdrop
    simpa [timeLe] using this

/-- C5: `purge_older_than` deletes only events strictly older than the
threshold; with a positive limit it removes at most that many rows,
choosing oldest first (every deleted row is no younger than any old
row left behind); with the limit absent it removes every old row; the
returned count is exactly the number of rows removed; and every row at
or after the threshold is left untouched. -/
theorem purge_older_than_spec (table : List StoredEvent) (threshold : Int)
    (hids : (table.map StoredEvent.id).Nodup) :
    (∀ l : Int, 0 < l →
      (∀ r ∈ table, r ∉ (purge_older_than table threshold (some l)).1 →
          r.event_time < threshold) ∧
      ((purge_older_than table threshold (some l)).1.filter
          (fun r => decide (¬ r.event_time < threshold))
        = table.filter (fun r => decide (¬ r.event_time < threshold))) ∧
      ((purge_older_than table threshold (some l)).2
        = table.length - (purge_older_than table threshold (some l)).1.length) ∧
      ((purge_older_than table threshold (some l)).2 ≤ l.toNat) ∧
      (∀ d ∈ table, d ∉ (purge_older_than table threshold (some l)).1 →
        ∀ k ∈ (purge_older_than table threshold (some l)).1,
          k.event_time < threshold → d.event_time ≤ k.event_time)) ∧
    ((purge_older_than table threshold none).1
        = table.filter (fun r => decide (¬ r.event_time < threshold))) ∧
    ((purge_older_than table threshold none).2
      = table.length - (purge_older_than table threshold none).1.length) ∧
    (∀ r ∈ table, r ∉ (purge_older_than table threshold none).1 →
      r.event_time < threshold) := by
  classical
  have hn1 : (purge_older_than table threshold none).1
      = table.filter (fun r => decide (¬ r.event_time < threshold)) := rfl
  have hn2 : (purge_older_than table threshold none).2
      = (table.filter (fun r => decide (r.event_time < threshold))).length := rfl
  refine ⟨fun l hl => purge_limit_props table threshold hids l hl, hn1, ?_, ?_⟩
  · rw [hn1, hn2]
    have hcompl := length_filter_compl
      (fun r => decide (r.event_time < threshold)) table
    have hfun : table.filter (fun r => decide (¬ r.event_time < threshold))
        = table.filter (fun r => !(decide (r.event_time < threshold))) := by
      apply List.filter_congr
      intro r hr
      simp only [decide_not]
    rw [hfun]
    omega
  · intro r hr hrem
    rw [hn1] at hrem
    by_contra hno
    exact hrem (List.mem_filter.mpr ⟨hr, by simpa using hno⟩)

/-! ## Concrete sample data for the witnesses -/

/-- Sample directory configuration (checksum computation off, events on
start requested). -/
def sample_config : DirectoryConfig := { path := "/crm", emit_on_start := true }

/-- Sample configuration with checksum computation enabled. -/
def checksum_config : DirectoryConfig := { path := "/crm", compute_checksum := true }

/-- Sample configuration with both size bounds set (4 ≤ size ≤ 9). -/
def bounded_config : DirectoryConfig :=
  { path := "/crm", min_file_size := some 4, max_file_size := some 9 }

def fs1 : FileState := { path := "f1", modified_at := 1, size := 10 }

def fs1b : FileState := { path := "f1", modified_at := 1, size := 20 }

def fs2 : FileState := { path := "f2", modified_at := 2, size := 5 }

/-- The spec's snapshot A = \x7bf1(size=10, mtime=t1)\x7d. -/
def snapA : Snapshot := [("f1", fs1)]

/-- The spec's snapshot B = \x7bf1(size=20, mtime=t1), f2(size=5, mtime=t2)\x7d. -/
def snapB : Snapshot := [("f1", fs1b), ("f2", fs2)]

def watcher_fresh : Watcher :=
  { config := sample_config, checksum_algorithm := "md5", snapshot := [],
    initialised := false }

def watcher_ready : Watcher :=
  { config := sample_config, checksum_algorithm := "md5", snapshot := snapB,
    initialised := true }

def fs_missing : Filesystem := { root_exists := false, files := [] }

def purge_table : List StoredEvent :=
  [{ id := 1, event_time := 5 }, { id := 2, event_time := 1 },
   { id := 3, event_time := 9 }]

/-! ## Witnesses -/

/-- Witness for C1 at the spec's example snapshots A and B. -/
theorem diff_event_groups_witness :
    ∃ cs ds ms : List FileEvent,
      diff sample_config snapA snapB = cs ++ ds ++ ms ∧
      (∀ e ∈ cs, e.event_type = "created") ∧
      (∀ e ∈ ds, e.event_type = "deleted") ∧
      (∀ e ∈ ms, e.event_type = "modified" ∧
        e.path ∈ snapshotKeys snapA ∧ e.path ∈ snapshotKeys snapB) ∧
      (∀ k, k ∈ cs.map FileEvent.path ↔
        k ∈ snapshotKeys snapB ∧ k ∉ snapshotKeys snapA) ∧
      (∀ k, k ∈ ds.map FileEvent.path ↔
        k ∈ snapshotKeys snapA ∧ k ∉ snapshotKeys snapB) ∧
      (cs.map FileEvent.path).Sorted (· ≤ ·) ∧
      (ds.map FileEvent.path).Sorted (· ≤ ·) ∧
      (ms.map FileEvent.path).Sorted (· ≤ ·) ∧
      ((cs ++ ds ++ ms).map FileEvent.path).Nodup :=
  diff_event_groups sample_config snapA snapB (by decide) (by decide)

/-- Witness for C2: f1 is common to A and B and changed in size only. -/
theorem diff_modified_iff_witness :
    ((∃ e ∈ diff sample_config snapA snapB, e.path = "f1") ↔
      (fs1.size ≠ fs1b.size ∨ fs1.modified_at ≠ fs1b.modified_at ∨
        (sample_config.compute_checksum = true ∧
          fs1.checksum ≠ fs1b.checksum))) ∧
    (∀ e ∈ diff sample_config snapA snapB, e.path = "f1" →
      e.event_type = "modified") :=
  diff_modified_iff sample_config snapA snapB (by decide) (by decide)
    "f1" fs1 fs1b (by decide) (by decide)

/-- Witness for C3 at a fresh watcher polling the two-entry snapshot B. -/
theorem first_poll_spec_witness :
    (watcher_fresh.poll snapB).2
      = { watcher_fresh with snapshot := snapB, initialised := true } ∧
    (watcher_fresh.config.emit_on_start = false →
      (watcher_fresh.poll snapB).1 = []) ∧
    (watcher_fresh.config.emit_on_start = true →
      (watcher_fresh.poll snapB).1.length = snapB.length ∧
      (∀ e ∈ (watcher_fresh.poll snapB).1, e.event_type = "created") ∧
      ((watcher_fresh.poll snapB).1.map FileEvent.path).Perm
        (snapshotKeys snapB)) :=
  first_poll_spec watcher_fresh rfl snapB (by decide)

/-- Witness for the amended C4: one healthy watcher, then a raising one,
then one more watcher that never gets polled. -/
theorem scheduler_poll_exception_propagates_witness :
    run_iteration ([Except.ok []] ++ Except.error "disk" :: [Except.ok []])
      = Except.error "disk" ∧
    polled_count ([Except.ok []] ++ Except.error "disk" :: [Except.ok []])
      = [(Except.ok [] : PollOutcome)].length + 1 ∧
    start_loop (([Except.ok []] ++ Except.error "disk" :: [Except.ok []])
        :: [[Except.ok []]])
      = Except.error "disk" :=
  scheduler_poll_exception_propagates [Except.ok []] [Except.ok []] "disk"
    (by
      intro p hp
      rcases List.mem_singleton.mp hp with rfl
      exact ⟨[], rfl⟩)
    [[Except.ok []]]

/-- Witness for C5 on a three-row table with distinct ids. -/
theorem purge_older_than_spec_witness :
    (∀ l : Int, 0 < l →
      (∀ r ∈ purge_table, r ∉ (purge_older_than purge_table 6 (some l)).1 →
          r.event_time < 6) ∧
      ((purge_older_than purge_table 6 (some l)).1.filter
          (fun r => decide (¬ r.event_time < 6))
        = purge_table.filter (fun r => decide (¬ r.event_time < 6))) ∧
      ((purge_older_than purge_table 6 (some l)).2
        = purge_table.length
            - (purge_older_than purge_table 6 (some l)).1.length) ∧
      ((purge_older_than purge_table 6 (some l)).2 ≤ l.toNat) ∧
      (∀ d ∈ purge_table, d ∉ (purge_older_than purge_table 6 (some l)).1 →
        ∀ k ∈ (purge_older_than purge_table 6 (some l)).1,
          k.event_time < 6 → d.event_time ≤ k.event_time)) ∧
    ((purge_older_than purge_table 6 none).1
        = purge_table.filter (fun r => decide (¬ r.event_time < 6))) ∧
    ((purge_older_than purge_table 6 none).2
      = purge_table.length - (purge_older_than purge_table 6 none).1.length) ∧
    (∀ r ∈ purge_table, r ∉ (purge_older_than purge_table 6 none).1 →
      r.event_time < 6) :=
  purge_older_than_spec purge_table 6 (by decide)

/-- Witness for the amended C6 with checksums enabled and algorithm
"md5". -/
theorem checksum_error_handling_witness :
    ((∃ e, Watcher.init checksum_config "md5" = Except.error e) ↔
      "md5" ∉ hashlib_algorithms) ∧
    (∀ err : String, compute_checksum "md5" (Except.error err) = none) ∧
    (∀ w : Watcher, w.config = checksum_config →
      w.checksum_algorithm = "md5" →
      ∀ (consider : String → Bool) (fs : Filesystem),
        fs.root_exists = true →
        (fs.files.map FsEntry.path).Nodup →
        ∀ entry ∈ fs.files, ∀ err : String,
          entry.read_result = Except.error err →
          consider entry.path = true →
          entry.stat_ok = true →
          passes_size_filter checksum_config entry.size = true →
          lookupState (build_snapshot w consider fs) entry.path =
            some { path := entry.path, modified_at := entry.mtime,
                   size := entry.size, checksum := none }) :=
  checksum_error_handling checksum_config "md5" rfl

/-- Witness for C7: polling twice with the unchanged snapshot B. -/
theorem poll_no_change_witness : (watcher_ready.poll snapB).1 = [] :=
  poll_no_change watcher_ready rfl snapB (fun _ => Iff.rfl) (fun _ => rfl)

/-- Witness for C8 with bounds 4 and 9. -/
theorem size_filter_boundary_witness :
    (∀ size : Int, passes_size_filter bounded_config size = true ↔
      ((∀ mn, bounded_config.min_file_size = some mn → mn ≤ size) ∧
       (∀ mx, bounded_config.max_file_size = some mx → size ≤ mx))) ∧
    (∀ mn, bounded_config.min_file_size = some mn →
      passes_size_filter bounded_config mn = true ∧
      passes_size_filter bounded_config (mn - 1) = false) ∧
    (∀ mx, bounded_config.max_file_size = some mx →
      passes_size_filter bounded_config mx = true ∧
      passes_size_filter bounded_config (mx + 1) = false) ∧
    (bounded_config.min_file_size = none →
      bounded_config.max_file_size = none →
      ∀ size : Int, passes_size_filter bounded_config size = true) :=
  size_filter_boundary bounded_config
    (by
      intro mn mx h1 h2
      have hmn : mn = 4 := by simpa [bounded_config] using h1.symm
      have hmx : mx = 9 := by simpa [bounded_config] using h2.symm
      omega)

/-- Witness for C9: the root is missing, the snapshot is empty, and the
watcher keeps polling. -/
theorem missing_root_poll_witness :
    build_snapshot watcher_ready (fun _ => true) fs_missing = [] ∧
    (watcher_ready.poll
        (build_snapshot watcher_ready (fun _ => true) fs_missing)).2.snapshot
      = [] ∧
    (watcher_ready.poll
        (build_snapshot watcher_ready (fun _ => true) fs_missing)).2.initialised
      = true ∧
    (∀ s2 : Snapshot,
      ((watcher_ready.poll
          (build_snapshot watcher_ready (fun _ => true) fs_missing)).2.poll
            s2).2.snapshot = s2) :=
  missing_root_poll watcher_ready (fun _ => true) fs_missing rfl

/-- Witness for C10 at the negative value -1. -/
theorem negative_bounds_disabled_witness :
    to_int_or_none (some (-1)) = none ∧
    parse_retention_days (some (-1)) = none ∧
    (∀ raw_max : Option Int, parse_size_bounds (some (-1)) raw_max
      = Except.ok (none, to_int_or_none raw_max)) ∧
    (∀ raw_min : Option Int, parse_size_bounds raw_min (some (-1))
      = Except.ok (to_int_or_none raw_min, none)) :=
  negative_bounds_disabled (-1) (by decide)

end CrmFileEventService
